import Mathlib

/-!
# Verification of the influxdb2 client's write path and row mapping

This file gives a shallow embedding, in Lean 4, of the influxdb2 Rust
client's line-protocol codec (DataPoint building and encoding), its write
API (`src/api/write.rs`), its URL construction (`src/lib.rs`), and the
row-to-struct mapping engine, together with theorems settling the
specification's claims about them.

The repository sources available here contain `src/lib.rs` and
`src/api/*.rs`; the `models` module (DataPoint, its builder, and the
`WriteDataPoint` line-protocol serializer) and the structmap decoding
engine are referenced but their files are not present, so those parts
are modelled from the specification's §4.1, §4.2 and §4.4, as noted on
each definition.
-/

deriving instance DecidableEq for Except

namespace Influx

/-! ## Value model and line protocol text (modelled from the spec §3, §4.2) -/

/-- Modelled from the spec: decimal digit character for `d < 10`,
code 48 + d (the `models` module's integer formatting is not in src/). -/
def digitChr (d : Nat) : Char := Char.ofNat (48 + d % 10)

/-- Modelled from the spec: decimal digits of `n`, most significant first,
with explicit fuel (the first argument) to keep the recursion structural. -/
def natTextAux : Nat → Nat → List Char
  | 0, _ => []
  | fuel + 1, n => if n = 0 then [] else natTextAux fuel (n / 10) ++ [digitChr (n % 10)]

/-- Modelled from the spec: decimal text of a natural number. -/
def natText (n : Nat) : List Char := if n = 0 then ['0'] else natTextAux n n

/-- Modelled from the spec: decimal text of a signed integer
(timestamps and `Int64` field values are rendered as decimal integer text). -/
def intText (i : Int) : List Char :=
  if i < 0 then '-' :: natText i.natAbs else natText i.natAbs

/-- Modelled from the spec §3: field values are "key→Value pairs, any Value
kind except Timestamp", so field values form their own tagged union.
The spec renders a float as its "shortest round-trip decimal text"; the
model carries that decimal text directly in the `float64` payload. -/
inductive FieldValue where
  | float64 (text : String)
  | int64 (v : Int)
  | uint64 (v : Nat)
  | str (s : String)
  | bool (b : Bool)
deriving DecidableEq, Repr

/-- Modelled from the spec §4.2: backslash-escape every character of `s`
that occurs in `specials`, applied independently per component. -/
def escapeChars (specials : List Char) (s : List Char) : List Char :=
  s.flatMap fun c => if c ∈ specials then ['\\', c] else [c]

/-- Modelled from the spec §4.2: measurement names escape comma and space. -/
def escMeasurement (s : String) : List Char := escapeChars [',', ' '] s.toList

/-- Modelled from the spec §4.2: tag keys, tag values and field keys escape
comma, equals and space. -/
def escKeyOrTag (s : String) : List Char := escapeChars [',', '=', ' '] s.toList

/-- Modelled from the spec §4.2: a string field value is wrapped in double
quotes; inside, backslash and double-quote are escaped. -/
def escStringValue (s : String) : List Char :=
  '"' :: escapeChars ['\\', '"'] s.toList ++ ['"']

/-- Modelled from the spec §4.2's rendering table: float → its decimal text,
signed integer → digits then `i`, unsigned → digits then `u`, boolean →
`t`/`f`, string → quoted and escaped. -/
def FieldValue.render : FieldValue → List Char
  | .float64 t => t.toList
  | .int64 v => intText v ++ ['i']
  | .uint64 v => natText v ++ ['u']
  | .str s => escStringValue s
  | .bool b => if b then ['t'] else ['f']

/-! ## DataPoint and its builder (modelled from the spec §3, §4.1) -/

/-- Modelled from the spec §3: a DataPoint is a measurement name, tags
(key→string pairs, canonically sorted by key by `build`), fields
(key→FieldValue pairs, non-empty after a successful build) and an optional
timestamp. -/
structure DataPoint where
  measurement : String
  tags : List (String × String)
  fields : List (String × FieldValue)
  timestamp : Option Int
deriving DecidableEq, Repr

/-- Modelled from the spec §4.1: the builder accumulates the same data as a
DataPoint, without any validation before `build`. -/
structure DataPointBuilder where
  measurement : String
  tags : List (String × String)
  fields : List (String × FieldValue)
  time : Option Int
deriving DecidableEq, Repr

/-- Modelled from the spec §7's build-time error taxonomy. -/
inductive DataPointError where
  | emptyMeasurement
  | noFields
deriving DecidableEq, Repr

/-- Modelled from the spec §4.1: `builder(measurement)` never fails at
construction time; validation is deferred to `build()`. -/
def DataPoint.builder (measurement : String) : DataPointBuilder :=
  ⟨measurement, [], [], none⟩

/-- Modelled from the spec §4.1: upsert into an association list — a
repeated key overwrites the prior value for that key (last-write-wins). -/
def upsert {α : Type} (key : String) (value : α) :
    List (String × α) → List (String × α)
  | [] => [(key, value)]
  | (k, v) :: rest =>
      if k = key then (k, value) :: rest else (k, v) :: upsert key value rest

/-- Modelled from the spec §4.1: `tag(key, value)`; repeated key
overwrites, no error raised. -/
def DataPointBuilder.tag (b : DataPointBuilder) (key value : String) :
    DataPointBuilder :=
  { b with tags := upsert key value b.tags }

/-- Modelled from the spec §4.1: `field(key, value)`; repeated key
overwrites. -/
def DataPointBuilder.field (b : DataPointBuilder) (key : String)
    (value : FieldValue) : DataPointBuilder :=
  { b with fields := upsert key value b.fields }

/-- Modelled from the spec §4.1: `timestamp(i64)` sets the point's
instant. -/
def DataPointBuilder.timestamp (b : DataPointBuilder) (t : Int) :
    DataPointBuilder :=
  { b with time := some t }

/-- Lexicographic comparison of two character lists by code point,
used to sort tags by key. -/
def keyLEb : List Char → List Char → Bool
  | [], _ => true
  | _ :: _, [] => false
  | a :: as, b :: bs =>
      if a.val.toNat < b.val.toNat then true
      else if b.val.toNat < a.val.toNat then false
      else keyLEb as bs

/-- Ordering of tags by key, used by `build` to canonicalize tag order. -/
def tagLE (a b : String × String) : Prop := keyLEb a.1.toList b.1.toList = true

instance : DecidableRel tagLE :=
  fun _ _ => inferInstanceAs (Decidable (_ = true))

theorem keyLEb_total (x y : List Char) : keyLEb x y = true ∨ keyLEb y x = true := by
  induction x generalizing y with
  | nil => exact .inl rfl
  | cons a as ih =>
    cases y with
    | nil => exact .inr rfl
    | cons b bs =>
      rcases Nat.lt_trichotomy a.val.toNat b.val.toNat with h | h | h
      · exact .inl (by simp [keyLEb, h])
      · rcases ih bs with h' | h'
        · exact .inl (by simp [keyLEb, h, h'])
        · exact .inr (by simp [keyLEb, h, h'])
      · exact .inr (by simp [keyLEb, h])

theorem keyLEb_trans {x y z : List Char} (h1 : keyLEb x y = true)
    (h2 : keyLEb y z = true) : keyLEb x z = true := by
  induction x generalizing y z with
  | nil => rfl
  | cons a as ih =>
    cases y with
    | nil => simp [keyLEb] at h1
    | cons b bs =>
      cases z with
      | nil => simp [keyLEb] at h2
      | cons c cs =>
        rw [keyLEb] at h1 h2 ⊢
        split at h1
        · rename_i hab
          split at h2
          · rename_i hbc
            rw [if_pos (by omega)]
          · split at h2
            · exact absurd h2 (by simp)
            · rename_i hbc hcb
              rw [if_pos (by omega)]
        · split at h1
          · exact absurd h1 (by simp)
          · rename_i hab hba
            split at h2
            · rename_i hbc
              rw [if_pos (by omega)]
            · split at h2
              · exact absurd h2 (by simp)
              · rename_i hbc hcb
                rw [if_neg (by omega), if_neg (by omega)]
                exact ih h1 h2

instance : IsTotal (String × String) tagLE := ⟨fun _ _ => keyLEb_total _ _⟩

instance : IsTrans (String × String) tagLE := ⟨fun _ _ _ => keyLEb_trans⟩

/-- Modelled from the spec §4.1: `build()` fails with `EmptyMeasurement` if
the measurement is empty, with `NoFields` if zero fields were added, and
otherwise canonicalizes tag ordering (sort by key) and returns the
immutable DataPoint. -/
def DataPointBuilder.build (b : DataPointBuilder) :
    Except DataPointError DataPoint :=
  if b.measurement = "" then .error .emptyMeasurement
  else if b.fields = [] then .error .noFields
  else .ok ⟨b.measurement, b.tags.insertionSort tagLE, b.fields, b.time⟩

/-! ## Line protocol encoder (modelled from the spec §4.2) -/

/-- Modelled from the spec §4.2: one field's `field_key=field_value`. -/
def fieldText (f : String × FieldValue) : List Char :=
  escKeyOrTag f.1 ++ '=' :: f.2.render

/-- Modelled from the spec §4.2: the field list,
`field_key=field_value[,field_key=field_value]*`. -/
def fieldsText : List (String × FieldValue) → List Char
  | [] => []
  | f :: rest => fieldText f ++ rest.flatMap fun g => ',' :: fieldText g

/-- Modelled from the spec §4.2's per-point grammar, up to the end of the
field list: `measurement[,tag_key=tag_value]* SPACE field_key=field_value
[,field_key=field_value]*`. -/
def lineBody (p : DataPoint) : List Char :=
  escMeasurement p.measurement
    ++ (p.tags.flatMap fun t => ',' :: escKeyOrTag t.1 ++ '=' :: escKeyOrTag t.2)
    ++ ' ' :: fieldsText p.fields

/-- Modelled from the spec §4.2: one line per point, the timestamp rendered
as integer text only when present (when absent the line ends right after
the field list), terminated by a newline. -/
def encodeLine (p : DataPoint) : List Char :=
  lineBody p
    ++ (match p.timestamp with
        | some t => ' ' :: intText t
        | none => [])
    ++ ['\n']

/-! ## Write API (`src/api/write.rs`) -/

/-- `TimestampPrecision` from `src/api/write.rs`: possible timestamp
precisions. -/
inductive TimestampPrecision where
  | seconds
  | milliseconds
  | microseconds
  | nanoseconds
deriving DecidableEq, Repr

/-- `TimestampPrecision::api_short_name` from `src/api/write.rs`. -/
def TimestampPrecision.api_short_name : TimestampPrecision → String
  | .seconds => "s"
  | .milliseconds => "ms"
  | .microseconds => "us"
  | .nanoseconds => "ns"

/-- Batch encoding, the spec §6 codec API `encode(points, precision)`:
each point's line in input order. In the code the precision only selects
the `precision` query parameter of the eventual request; it does not
change the rendered line text. -/
def encode (points : List DataPoint) (_precision : TimestampPrecision) :
    List Char :=
  (points.map encodeLine).flatten

/-! ## URL construction (`src/lib.rs`) -/

/-- The parts of a `Uri` that `Client::url` manipulates: everything up to
the start of the path (scheme and authority), and the path-and-query. -/
structure UriParts where
  scheme_authority : List Char
  path_and_query : List Char
deriving DecidableEq, Repr

/-- Split a character list at its first `/`, returning the part before it
and the remainder (which starts with the `/` when one exists). Used to
separate a URI's authority from its path. -/
def splitAtSlash : List Char → List Char × List Char
  | [] => ([], [])
  | c :: rest =>
      if c = '/' then ([], c :: rest)
      else
        let (a, b) := splitAtSlash rest
        (c :: a, b)

/-- Split a character list at its first `://` marker, returning the
text up to and including the marker, and the remainder. -/
def splitScheme : List Char → Option (List Char × List Char)
  | [] => none
  | c :: rest =>
      if c = ':' ∧ rest.take 2 = ['/', '/'] then
        some ([':', '/', '/'], rest.drop 2)
      else
        (splitScheme rest).map fun p => (c :: p.1, p.2)

/-- Parsing a URI string into the parts `Client::url` works with:
scheme-and-authority up to the first `/` after `://`, and the rest as
path-and-query. -/
def parseUri (s : List Char) : UriParts :=
  match splitScheme s with
  | some (sch, rest) =>
      let (auth, path) := splitAtSlash rest
      ⟨sch ++ auth, path⟩
  | none => ⟨[], s⟩

/-- `url.strip_suffix("/").unwrap_or(&url)` in `ClientBuilder::new`
(`src/lib.rs`): remove one trailing slash when present. -/
def stripTrailingSlash (s : List Char) : List Char :=
  if s.getLast? = some '/' then s.dropLast else s

/-- `ClientBuilder::new` (`src/lib.rs`): the base URI stored in the
client is the given URL with one trailing slash stripped, then parsed. -/
def clientBuilderNewBase (url : List Char) : UriParts :=
  parseUri (stripTrailingSlash url)

/-- `Client::url` (`src/lib.rs`): prepend a `/` to the endpoint when it
does not start with one, then replace the base URI's path-and-query with
the endpoint. -/
def clientUrl (base : UriParts) (endpoint : List Char) : UriParts :=
  { base with
    path_and_query :=
      if endpoint.head? = some '/' then endpoint else '/' :: endpoint }

/-- Rendering a URI back to text. -/
def renderUri (u : UriParts) : List Char :=
  u.scheme_authority ++ u.path_and_query

/-! ## Client, requests and the write path (`src/lib.rs`, `src/api/write.rs`) -/

/-- An I/O fault from the output sink, the payload of `BodyBuilding`. -/
abbrev IOError : Type := String

/-- An outgoing HTTP request, as assembled by
`write_line_protocol_with_precision_headers`: target URI, headers
(authorization first, as added by `Client::post`), query pairs, body. -/
structure HttpRequest where
  url : UriParts
  headers : List (String × String)
  query : List (String × String)
  body : List Char
deriving DecidableEq, Repr

/-- An HTTP response: status code and the body text that
`read_to_string` produces. -/
structure HttpResponse where
  status : Nat
  text : String
deriving DecidableEq, Repr

/-- The transport collaborator (`ureq`): sends one request and either
returns a response or fails with a transport error. -/
def Transport : Type := HttpRequest → Except String HttpResponse

/-- `RequestError` from `src/lib.rs`: errors that occur while making
requests to the Influx server. -/
inductive RequestError where
  | uriBuilding (source : String)
  | requestBuilding (source : String)
  | bodyBuilding (source : IOError)
  | ureqProcessing (source : String)
  | http (status : Nat) (text : String)
  | serializing (source : String)
  | deserializing (text : String)
deriving DecidableEq, Repr

/-- `Client` from `src/lib.rs`: base URI, organization, optional
authorization header. -/
structure Client where
  base : UriParts
  org : String
  auth_header : Option String
deriving DecidableEq, Repr

/-- The request assembled by `write_line_protocol_with_precision_headers`
(`src/api/write.rs` lines 50–62): POST to `url("/api/v2/write")` with the
authorization header (when present) followed by the extra headers, and
query pairs `bucket`, `org`, `precision`. -/
def mkWriteRequest (client : Client) (org bucket : String)
    (precision : TimestampPrecision) (headers : List (String × String))
    (body : List Char) : HttpRequest :=
  { url := clientUrl client.base "/api/v2/write".toList
    headers :=
      (match client.auth_header with
       | some a => [("Authorization", a)]
       | none => []) ++ headers
    query := [("bucket", bucket), ("org", org),
              ("precision", precision.api_short_name)]
    body := body }

/-- `write_line_protocol_with_precision_headers` (`src/api/write.rs`
lines 42–72): send the request; a transport fault is `UreqProcessing`;
a response whose status is not 204 No Content becomes an `Http` error
carrying the status and the response text; status 204 is `Ok(())`. -/
def write_line_protocol_with_precision_headers (transport : Transport)
    (client : Client) (org bucket : String) (body : List Char)
    (precision : TimestampPrecision) (headers : List (String × String)) :
    Except RequestError Unit :=
  match transport (mkWriteRequest client org bucket precision headers body) with
  | .error e => .error (.ureqProcessing e)
  | .ok response =>
      if response.status ≠ 204 then
        .error (.http response.status response.text)
      else
        .ok ()

/-- `write_line_protocol_with_precision` (`src/api/write.rs` lines
26–40): the headers variant with no extra headers. -/
def write_line_protocol_with_precision (transport : Transport)
    (client : Client) (org bucket : String) (body : List Char)
    (precision : TimestampPrecision) : Except RequestError Unit :=
  write_line_protocol_with_precision_headers transport client org bucket
    body precision []

/-- `write_line_protocol` (`src/api/write.rs` lines 16–23): writes with
default timestamp precision (nanoseconds). -/
def write_line_protocol (transport : Transport) (client : Client)
    (org bucket : String) (body : List Char) : Except RequestError Unit :=
  write_line_protocol_with_precision transport client org bucket body
    .nanoseconds

/-- The buffer-building loop of `write_with_precision` (`src/api/write.rs`
lines 95–101): each point's `write_data_point_to` output is appended to
one growing in-memory buffer; the first failing write aborts with its
I/O error. The serializer `enc` is a parameter, matching the method's
genericity over `impl WriteDataPoint`. -/
def buildBody {P : Type} (enc : P → Except IOError (List Char)) :
    List P → Except IOError (List Char)
  | [] => .ok []
  | p :: ps =>
      match enc p with
      | .error e => .error e
      | .ok line =>
          match buildBody enc ps with
          | .error e => .error e
          | .ok rest => .ok (line ++ rest)

/-- `write_with_precision` (`src/api/write.rs` lines 89–107): serialize
every point into one buffer (a failure is wrapped as `BodyBuilding` and
returned), then hand the whole buffer to
`write_line_protocol_with_precision` with the client's own org. -/
def write_with_precision {P : Type} (transport : Transport)
    (client : Client) (enc : P → Except IOError (List Char))
    (bucket : String) (points : List P)
    (timestamp_precision : TimestampPrecision) : Except RequestError Unit :=
  match buildBody enc points with
  | .error e => .error (.bodyBuilding e)
  | .ok buffer =>
      write_line_protocol_with_precision transport client client.org bucket
        buffer timestamp_precision

/-- `write` (`src/api/write.rs` lines 78–85): writes with default
timestamp precision (nanoseconds). -/
def write {P : Type} (transport : Transport) (client : Client)
    (enc : P → Except IOError (List Char)) (bucket : String)
    (points : List P) : Except RequestError Unit :=
  write_with_precision transport client enc bucket points .nanoseconds

/-- The `WriteDataPoint` serializer of a `DataPoint` (modelled from the
spec §4.2): writing one point's line to an in-memory buffer, which never
fails. -/
def DataPoint.writeTo (p : DataPoint) : Except IOError (List Char) :=
  .ok (encodeLine p)

/-- A point none of whose rendered components contains a newline: the
measurement, every tag key and value, every field key, and every rendered
field value are newline-free. (Line-protocol escaping never escapes a
newline, so a newline inside a component would survive into the line.) -/
def DataPoint.newlineFree (p : DataPoint) : Prop :=
  '\n' ∉ p.measurement.toList ∧
  (∀ t ∈ p.tags, '\n' ∉ t.1.toList ∧ '\n' ∉ t.2.toList) ∧
  (∀ f ∈ p.fields, '\n' ∉ f.1.toList ∧ '\n' ∉ f.2.render)

instance (p : DataPoint) : Decidable p.newlineFree := by
  unfold DataPoint.newlineFree; infer_instance

/-! ## Row model and mapping engine (modelled from the spec §3, §4.4) -/

/-- Modelled from the spec §3: the read-path `Value` tagged union of
scalar kinds. As on the write path, a float is carried as its decimal
text, and a timestamp as its RFC3339 text. -/
inductive Value where
  | float64 (text : String)
  | int64 (v : Int)
  | uint64 (v : Nat)
  | str (s : String)
  | bool (b : Bool)
  | timestamp (text : String)
deriving DecidableEq, Repr

/-- The six scalar kinds of `Value`. -/
inductive ValueKind where
  | float
  | int
  | uint
  | str
  | bool
  | time
deriving DecidableEq, Repr

/-- The kind of a `Value`. -/
def Value.kind : Value → ValueKind
  | .float64 _ => .float
  | .int64 _ => .int
  | .uint64 _ => .uint
  | .str _ => .str
  | .bool _ => .bool
  | .timestamp _ => .time

/-- Modelled from the spec §7's decode-time error taxonomy. -/
inductive MappingError where
  | unknownDatatype (name : String)
  | malformedValue (column : String) (raw_text : String)
  | typeMismatch (field : String) (expected actual : ValueKind)
deriving DecidableEq, Repr

/-- Modelled from the spec §4.4: one declared field of a decode target —
its name, its expected value kind, and the setter that assigns a matched
column's value into the target. -/
structure FieldDesc (T : Type) where
  name : String
  kind : ValueKind
  set : T → Value → T

/-- Modelled from the spec §3: per target type, the declared fields and
the rule for obtaining the target's default value. -/
structure MappingDescriptor (T : Type) where
  fields : List (FieldDesc T)
  default : T

/-- Modelled from the spec §3: a Row is an ordered sequence of
(column name, Value) pairs; the declared datatype tag already produced
the `Value`, so only name and value reach the mapping engine. -/
abbrev Row : Type := List (String × Value)

/-- Modelled from the spec §4.4's algorithm, steps 2–5: walk the row's
columns; a column matching no declared field is ignored silently; a
matched field with equal kind is assigned (overwriting the default); a
kind mismatch fails the whole decode with `TypeMismatch`. -/
def decodeFrom {T : Type} (fields : List (FieldDesc T)) (acc : T) :
    Row → Except MappingError T
  | [] => .ok acc
  | (name, v) :: rest =>
      match fields.find? (fun f => f.name == name) with
      | none => decodeFrom fields acc rest
      | some f =>
          if v.kind = f.kind then decodeFrom fields (f.set acc v) rest
          else .error (.typeMismatch name f.kind v.kind)

/-- Modelled from the spec §4.4: `decode(row, descriptor)` starts from
the target's default value and folds the row's columns into it. -/
def decode {T : Type} (d : MappingDescriptor T) (row : Row) :
    Except MappingError T :=
  decodeFrom d.fields d.default row

/-- The spec §8 Scenario D target: `host` and `region` optional strings
defaulting to none, `value` a float defaulting to 0 (carried, like every
float in this model, as its decimal text). -/
structure SensorRecord where
  host : Option String
  region : Option String
  value : String
deriving DecidableEq, Repr

/-- Scenario D's descriptor: fields `host`, `region` (strings) and
`value` (float), with the all-default record as default value. -/
def sensorDescriptor : MappingDescriptor SensorRecord where
  fields :=
    [⟨"host", .str, fun t v =>
        match v with | .str s => { t with host := some s } | _ => t⟩,
     ⟨"region", .str, fun t v =>
        match v with | .str s => { t with region := some s } | _ => t⟩,
     ⟨"value", .float, fun t v =>
        match v with | .float64 x => { t with value := x } | _ => t⟩]
  default := ⟨none, none, "0"⟩

/-! ## Auxiliary lemmas -/

theorem buildBody_pure {P : Type} (f : P → List Char) (points : List P) :
    buildBody (fun p => .ok (f p)) points = .ok ((points.map f).flatten) := by
  induction points with
  | nil => rfl
  | cons p ps ih => simp [buildBody, ih]

theorem wlpHeaders_ne_bodyBuilding (transport : Transport) (client : Client)
    (org bucket : String) (body : List Char) (precision : TimestampPrecision)
    (headers : List (String × String)) (e : IOError) :
    write_line_protocol_with_precision_headers transport client org bucket
      body precision headers ≠ .error (.bodyBuilding e) := by
  unfold write_line_protocol_with_precision_headers
  cases transport (mkWriteRequest client org bucket precision headers body) with
  | error e' => simp
  | ok response =>
    dsimp only
    split <;> simp

theorem not_mem_escapeChars {c : Char} (specials s : List Char)
    (hc : c ≠ '\\') (h : c ∉ s) : c ∉ escapeChars specials s := by
  intro hmem
  rw [escapeChars, List.mem_flatMap] at hmem
  obtain ⟨a, ha, hin⟩ := hmem
  by_cases hsp : a ∈ specials
  · rw [if_pos hsp] at hin
    simp only [List.mem_cons, List.mem_singleton, List.not_mem_nil, or_false] at hin
    rcases hin with h1 | h2
    · exact hc h1
    · exact h (h2 ▸ ha)
  · rw [if_neg hsp] at hin
    simp only [List.mem_singleton] at hin
    exact h (hin ▸ ha)

theorem digitChr_ne_newline (d : Nat) : digitChr d ≠ '\n' := by
  have h : ∀ m, m < 10 → Char.ofNat (48 + m) ≠ '\n' := by decide
  exact h (d % 10) (Nat.mod_lt _ (by norm_num))

theorem not_mem_natTextAux (fuel n : Nat) : '\n' ∉ natTextAux fuel n := by
  induction fuel generalizing n with
  | zero => simp [natTextAux]
  | succ k ih =>
    rw [natTextAux]
    split
    · simp
    · intro h
      rw [List.mem_append] at h
      rcases h with h | h
      · exact ih _ h
      · rw [List.mem_singleton] at h
        exact digitChr_ne_newline _ h.symm

theorem not_mem_natText (n : Nat) : '\n' ∉ natText n := by
  rw [natText]
  split
  · decide
  · exact not_mem_natTextAux n n

theorem not_mem_intText (i : Int) : '\n' ∉ intText i := by
  rw [intText]
  split
  · intro h
    rw [List.mem_cons] at h
    rcases h with h | h
    · exact absurd h (by decide)
    · exact not_mem_natText _ h
  · exact not_mem_natText _

theorem not_mem_fieldText (f : String × FieldValue)
    (h : '\n' ∉ f.1.toList ∧ '\n' ∉ f.2.render) : '\n' ∉ fieldText f := by
  rw [fieldText]
  intro hmem
  rw [List.mem_append] at hmem
  rcases hmem with hmem | hmem
  · exact not_mem_escapeChars _ _ (by decide) h.1 hmem
  · rw [List.mem_cons] at hmem
    rcases hmem with hmem | hmem
    · exact absurd hmem (by decide)
    · exact h.2 hmem

theorem not_mem_fieldsText (fs : List (String × FieldValue))
    (h : ∀ f ∈ fs, '\n' ∉ f.1.toList ∧ '\n' ∉ f.2.render) :
    '\n' ∉ fieldsText fs := by
  cases fs with
  | nil => simp [fieldsText]
  | cons f rest =>
    rw [fieldsText]
    intro hmem
    rw [List.mem_append] at hmem
    rcases hmem with hmem | hmem
    · exact not_mem_fieldText f (h f (List.mem_cons_self f rest)) hmem
    · rw [List.mem_flatMap] at hmem
      obtain ⟨g, hg, hin⟩ := hmem
      rw [List.mem_cons] at hin
      rcases hin with hin | hin
      · exact absurd hin (by decide)
      · exact not_mem_fieldText g (h g (List.mem_cons_of_mem f hg)) hin

theorem not_mem_lineBody (p : DataPoint) (h : p.newlineFree) :
    '\n' ∉ lineBody p := by
  obtain ⟨hm, ht, hf⟩ := h
  rw [lineBody]
  intro hmem
  rw [List.mem_append] at hmem
  rcases hmem with hmem | hmem
  · rw [List.mem_append] at hmem
    rcases hmem with hmem | hmem
    · exact not_mem_escapeChars _ _ (by decide) hm hmem
    · rw [List.mem_flatMap] at hmem
      obtain ⟨t, htag, hin⟩ := hmem
      have := ht t htag
      rw [List.mem_append] at hin
      rcases hin with hin | hin
      · rw [List.mem_cons] at hin
        rcases hin with hin | hin
        · exact absurd hin (by decide)
        · exact not_mem_escapeChars _ _ (by decide) this.1 hin
      · rw [List.mem_cons] at hin
        rcases hin with hin | hin
        · exact absurd hin (by decide)
        · exact not_mem_escapeChars _ _ (by decide) this.2 hin
  · rw [List.mem_cons] at hmem
    rcases hmem with hmem | hmem
    · exact absurd hmem (by decide)
    · exact not_mem_fieldsText _ hf hmem

theorem getLast?_encodeLine (p : DataPoint) :
    (encodeLine p).getLast? = some '\n' := by
  rw [encodeLine, List.getLast?_concat]

theorem count_encodeLine (p : DataPoint) (h : p.newlineFree) :
    (encodeLine p).count '\n' = 1 := by
  rw [encodeLine, List.count_append, List.count_append]
  have h1 : (lineBody p).count '\n' = 0 :=
    List.count_eq_zero.mpr (not_mem_lineBody p h)
  have h2 : (match p.timestamp with
      | some t => ' ' :: intText t
      | none => []).count '\n' = 0 := by
    cases p.timestamp with
    | none => rfl
    | some t =>
      apply List.count_eq_zero.mpr
      intro hmem
      rw [List.mem_cons] at hmem
      rcases hmem with hmem | hmem
      · exact absurd hmem (by decide)
      · exact not_mem_intText t hmem
  rw [h1, h2]
  rfl

theorem splitAtSlash_no_slash (a : List Char) (h : '/' ∉ a) :
    splitAtSlash a = (a, []) := by
  induction a with
  | nil => rfl
  | cons c cs ih =>
    have hc : ¬ c = '/' := fun hc => h (hc ▸ List.mem_cons_self c cs)
    simp [splitAtSlash, hc, ih (fun hm => h (List.mem_cons_of_mem c hm))]

theorem splitScheme_append (sch tail : List Char) (h : ':' ∉ sch) :
    splitScheme (sch ++ ':' :: '/' :: '/' :: tail)
      = some (sch ++ [':', '/', '/'], tail) := by
  induction sch with
  | nil => simp [splitScheme]
  | cons c cs ih =>
    have hc : ¬ c = ':' := fun hc => h (hc ▸ List.mem_cons_self c cs)
    rw [List.cons_append, splitScheme,
      if_neg (fun hand => hc hand.1),
      ih (fun hm => h (List.mem_cons_of_mem c hm))]
    rfl

theorem parseUri_base (sch auth : List Char) (hs : ':' ∉ sch)
    (ha : '/' ∉ auth) :
    parseUri (sch ++ ':' :: '/' :: '/' :: auth)
      = ⟨sch ++ [':', '/', '/'] ++ auth, []⟩ := by
  rw [parseUri, splitScheme_append sch auth hs]
  simp [splitAtSlash_no_slash auth ha]

theorem stripTrailingSlash_concat (x : List Char) :
    stripTrailingSlash (x ++ ['/']) = x := by
  rw [stripTrailingSlash, List.getLast?_concat, if_pos rfl,
    List.dropLast_concat]

theorem stripTrailingSlash_of_ne (x : List Char)
    (h : x.getLast? ≠ some '/') : stripTrailingSlash x = x := by
  rw [stripTrailingSlash, if_neg h]

theorem decodeFrom_filter {T : Type} (fields : List (FieldDesc T)) (acc : T)
    (row : Row) :
    decodeFrom fields acc
        (row.filter fun c => fields.any fun f => f.name == c.1)
      = decodeFrom fields acc row := by
  induction row generalizing acc with
  | nil => rfl
  | cons c rest ih =>
    obtain ⟨name, v⟩ := c
    by_cases h : (fields.any fun f => f.name == name) = true
    · have h' : (fields.any fun f => f.name == ((name, v) : String × Value).1)
          = true := h
      rw [List.filter_cons, if_pos h']
      simp only [decodeFrom]
      cases hf : fields.find? (fun f => f.name == name) with
      | none => simp [hf, ih]
      | some f =>
        simp only [hf]
        split
        · exact ih _
        · rfl
    · have h' : ¬ (fields.any fun f => f.name == ((name, v) : String × Value).1)
          = true := h
      rw [List.filter_cons, if_neg h']
      rw [ih]
      have hf : fields.find? (fun f => f.name == name) = none := by
        rw [List.find?_eq_none]
        intro f hfm hbeq
        exact h (List.any_eq_true.mpr ⟨f, hfm, hbeq⟩)
      simp [decodeFrom, hf]

theorem decodeFrom_all_unknown {T : Type} (fields : List (FieldDesc T))
    (acc : T) (row : Row)
    (h : ∀ c ∈ row, ∀ f ∈ fields, ¬ f.name = c.1) :
    decodeFrom fields acc row = .ok acc := by
  induction row with
  | nil => rfl
  | cons c rest ih =>
    obtain ⟨name, v⟩ := c
    have hf : fields.find? (fun f => f.name == name) = none := by
      rw [List.find?_eq_none]
      intro f hfm hbeq
      exact h (name, v) (List.mem_cons_self _ _) f hfm (by simpa using hbeq)
    simp only [decodeFrom, hf]
    exact ih (fun c hc => h c (List.mem_cons_of_mem _ hc))

/-! ## Claim theorems -/

/-- Claim C1: encoding the single DataPoint with measurement `cpu`, tag
`host=server01`, field `usage=0.5` and no timestamp produces exactly the
bytes `cpu,host=server01 usage=0.5\n`, and encoding it followed by a
second point adding tag `region=us-west` and field `usage=0.87` produces
exactly the two lines in input order; the two points are the ones the
builder constructs from those ingredients. -/
theorem claim_c1_scenario_bytes :
    (((DataPoint.builder "cpu").tag "host" "server01").field "usage"
        (.float64 "0.5")).build
      = .ok ⟨"cpu", [("host", "server01")], [("usage", .float64 "0.5")], none⟩
  ∧ ((((DataPoint.builder "cpu").tag "host" "server01").tag "region"
        "us-west").field "usage" (.float64 "0.87")).build
      = .ok ⟨"cpu", [("host", "server01"), ("region", "us-west")],
             [("usage", .float64 "0.87")], none⟩
  ∧ encode [⟨"cpu", [("host", "server01")], [("usage", .float64 "0.5")], none⟩]
        .nanoseconds
      = "cpu,host=server01 usage=0.5\n".toList
  ∧ encode
        [⟨"cpu", [("host", "server01")], [("usage", .float64 "0.5")], none⟩,
         ⟨"cpu", [("host", "server01"), ("region", "us-west")],
          [("usage", .float64 "0.87")], none⟩] .nanoseconds
      = "cpu,host=server01 usage=0.5\ncpu,host=server01,region=us-west usage=0.87\n".toList := by
  refine ⟨by decide, by decide, by decide, by decide⟩

/-- Claim C2: the timestamp is rendered as integer text only when the
point carries one, and when it is absent the line ends right after the
field list with no trailing space; Scenario C's point with field
`usage=0.5` and timestamp `1671095854` yields exactly
`cpu,host=server01 usage=0.5 1671095854\n` (the integer text is the raw
timestamp; the requested precision only fixes the unit it is read in). -/
theorem claim_c2_timestamp_rendering (p : DataPoint) :
    (∀ t : Int, p.timestamp = some t →
       encodeLine p = lineBody p ++ ' ' :: intText t ++ ['\n'])
  ∧ (p.timestamp = none → encodeLine p = lineBody p ++ ['\n'])
  ∧ encodeLine ⟨"cpu", [("host", "server01")], [("usage", .float64 "0.5")],
        some 1671095854⟩
      = "cpu,host=server01 usage=0.5 1671095854\n".toList := by
  refine ⟨?_, ?_, by decide⟩
  · intro t ht
    rw [encodeLine, ht]
  · intro ht
    rw [encodeLine, ht]
    simp

/-- Witness for C2 at concrete points: one carrying Scenario C's
timestamp, one carrying none. -/
theorem claim_c2_timestamp_rendering_witness :
    encodeLine ⟨"cpu", [("host", "server01")], [("usage", .float64 "0.5")],
        some 1671095854⟩
      = lineBody ⟨"cpu", [("host", "server01")],
          [("usage", .float64 "0.5")], some 1671095854⟩
          ++ ' ' :: intText 1671095854 ++ ['\n']
  ∧ encodeLine ⟨"cpu", [("host", "server01")], [("usage", .float64 "0.5")],
        none⟩
      = lineBody ⟨"cpu", [("host", "server01")],
          [("usage", .float64 "0.5")], none⟩ ++ ['\n'] :=
  ⟨(claim_c2_timestamp_rendering _).1 1671095854 rfl,
   (claim_c2_timestamp_rendering _).2.1 rfl⟩

/-- Claim C3: the only encode-time failure of `write_with_precision` is
an I/O fault from the sink, surfaced as `BodyBuilding`; when any point's
write fails the whole batch is abandoned — the result is the
`BodyBuilding` error whatever the transport would have answered, so no
request is sent — and conversely a `BodyBuilding` result can only come
from a failed buffer write, never from validation. -/
theorem claim_c3_encode_failure_aborts {P : Type}
    (enc : P → Except IOError (List Char)) (points : List P) :
    (∀ e : IOError, buildBody enc points = .error e →
       ∀ (transport : Transport) (client : Client) (bucket : String)
         (precision : TimestampPrecision),
         write_with_precision transport client enc bucket points precision
           = .error (.bodyBuilding e))
  ∧ (∀ (transport : Transport) (client : Client) (bucket : String)
       (precision : TimestampPrecision) (e : IOError),
       write_with_precision transport client enc bucket points precision
         = .error (.bodyBuilding e) →
       buildBody enc points = .error e) := by
  constructor
  · intro e he transport client bucket precision
    simp [write_with_precision, he]
  · intro transport client bucket precision e hw
    cases hb : buildBody enc points with
    | error e' =>
      simp [write_with_precision, hb] at hw
      rw [hw]
    | ok buffer =>
      simp [write_with_precision, hb] at hw
      exact absurd hw
        (wlpHeaders_ne_bodyBuilding transport client client.org bucket buffer
          precision [] e)

/-- Witness for C3: a one-point batch whose serializer fails with an I/O
fault is abandoned with that fault as `BodyBuilding`. -/
theorem claim_c3_encode_failure_aborts_witness :
    buildBody (fun _ : Unit => (.error "disk full" : Except IOError (List Char)))
        [()]
      = .error "disk full"
  ∧ write_with_precision (fun _ => .ok ⟨204, ""⟩)
        ⟨⟨"http://h".toList, []⟩, "org", none⟩
        (fun _ : Unit => (.error "disk full" : Except IOError (List Char)))
        "bucket" [()] .nanoseconds
      = .error (.bodyBuilding "disk full") :=
  ⟨rfl,
   (claim_c3_encode_failure_aborts
     (fun _ : Unit => (.error "disk full" : Except IOError (List Char)))
     [()]).1 "disk full" rfl _ _ _ _⟩

/-- Claim C4: `write_with_precision` serializes the whole input sequence
eagerly into one buffer, and the external send happens only after every
point has been written: whenever the buffer build succeeds the result is
exactly the line-protocol send of the complete buffer, and for an
always-succeeding serializer the buffer is the concatenation of every
point's output in input order. -/
theorem claim_c4_eager_serialization {P : Type}
    (enc : P → Except IOError (List Char)) (f : P → List Char)
    (transport : Transport) (client : Client) (bucket : String)
    (precision : TimestampPrecision) (points : List P) (buffer : List Char) :
    (buildBody enc points = .ok buffer →
       write_with_precision transport client enc bucket points precision
         = write_line_protocol_with_precision transport client client.org
             bucket buffer precision)
  ∧ buildBody (fun p => .ok (f p)) points = .ok ((points.map f).flatten)
  ∧ write_with_precision transport client (fun p => .ok (f p)) bucket points
        precision
      = write_line_protocol_with_precision transport client client.org bucket
          ((points.map f).flatten) precision := by
  refine ⟨?_, buildBody_pure f points, ?_⟩
  · intro hb
    simp [write_with_precision, hb]
  · simp [write_with_precision, buildBody_pure f points]

/-- Witness for C4: a two-point batch with an empty-output serializer is
sent as one request whose body is the (empty) concatenation. -/
theorem claim_c4_eager_serialization_witness :
    write_with_precision (fun _ => .ok ⟨204, ""⟩)
        ⟨⟨"http://h".toList, []⟩, "org", none⟩
        (fun _ : Unit => (.ok [] : Except IOError (List Char))) "b" [(), ()]
        .seconds
      = write_line_protocol_with_precision (fun _ => .ok ⟨204, ""⟩)
          ⟨⟨"http://h".toList, []⟩, "org", none⟩ "org" "b" [] .seconds :=
  (claim_c4_eager_serialization (fun _ : Unit => .ok []) (fun _ => []) _ _ _ _
    [(), ()] []).1 rfl

/-- Claim C5: for every precision, `encode` produces exactly one
newline-terminated line per input point, concatenated in input order:
the batch is the flat concatenation of the per-point lines (and it is
exactly the buffer the write path builds), every line ends in a newline,
and a line of a newline-free point contains exactly one newline. -/
theorem claim_c5_one_line_per_point (precision : TimestampPrecision)
    (points : List DataPoint) (p : DataPoint) :
    encode points precision = (points.map encodeLine).flatten
  ∧ buildBody DataPoint.writeTo points = .ok (encode points precision)
  ∧ (encodeLine p).getLast? = some '\n'
  ∧ (p.newlineFree → (encodeLine p).count '\n' = 1) := by
  refine ⟨rfl, ?_, getLast?_encodeLine p, count_encodeLine p⟩
  exact buildBody_pure encodeLine points

/-- Witness for C5 at Scenario A's point: its line holds exactly one
newline. -/
theorem claim_c5_one_line_per_point_witness :
    (encodeLine ⟨"cpu", [("host", "server01")],
        [("usage", .float64 "0.5")], none⟩).count '\n' = 1 :=
  (claim_c5_one_line_per_point .seconds [] _).2.2.2 (by decide)

/-- Claim C6: `build()` fails with `EmptyMeasurement` exactly when the
measurement is empty (builder construction itself never fails — it just
records the measurement), fails with `NoFields` when no field was added,
and otherwise returns the DataPoint with its tags canonically sorted by
key (a permutation of the accumulated tags), fields and timestamp
unchanged. -/
theorem claim_c6_build_validation (m : String) (b : DataPointBuilder) :
    DataPoint.builder m = ⟨m, [], [], none⟩
  ∧ (b.measurement = "" → b.build = .error .emptyMeasurement)
  ∧ (b.measurement ≠ "" → b.fields = [] → b.build = .error .noFields)
  ∧ (b.measurement ≠ "" → b.fields ≠ [] →
       ∃ p : DataPoint, b.build = .ok p ∧ p.measurement = b.measurement
         ∧ List.Perm p.tags b.tags ∧ List.Sorted tagLE p.tags
         ∧ p.fields = b.fields ∧ p.timestamp = b.time) := by
  refine ⟨rfl, ?_, ?_, ?_⟩
  · intro h
    rw [DataPointBuilder.build, if_pos h]
  · intro h1 h2
    rw [DataPointBuilder.build, if_neg h1, if_pos h2]
  · intro h1 h2
    refine ⟨⟨b.measurement, b.tags.insertionSort tagLE, b.fields, b.time⟩,
      ?_, rfl, List.perm_insertionSort tagLE b.tags,
      List.sorted_insertionSort tagLE b.tags, rfl, rfl⟩
    rw [DataPointBuilder.build, if_neg h1, if_neg h2]

/-- Witness for C6: the three outcomes at concrete builders, the third
with out-of-order tags that build sorts. -/
theorem claim_c6_build_validation_witness :
    DataPointBuilder.build ⟨"", [], [("f", .bool true)], none⟩
      = .error .emptyMeasurement
  ∧ DataPointBuilder.build ⟨"cpu", [], [], none⟩ = .error .noFields
  ∧ ∃ p : DataPoint,
      DataPointBuilder.build ⟨"cpu", [("b", "2"), ("a", "1")],
          [("f", .bool true)], none⟩ = .ok p
      ∧ p.measurement = "cpu" ∧ List.Perm p.tags [("b", "2"), ("a", "1")]
      ∧ List.Sorted tagLE p.tags ∧ p.fields = [("f", .bool true)]
      ∧ p.timestamp = none :=
  ⟨(claim_c6_build_validation "" _).2.1 rfl,
   (claim_c6_build_validation "cpu" _).2.2.1 (by decide) rfl,
   (claim_c6_build_validation "cpu" _).2.2.2 (by decide) (by decide)⟩

/-- Claim C7: decode starts from the target's default, silently ignores
every column matching no declared field (dropping such columns never
changes the result), leaves declared fields with no matching column at
their defaults (a row with no matching column at all decodes to the
default), and Scenario D decodes to
`{host: some "server01", region: none, value: 0.64}`. -/
theorem claim_c7_decode_defaults {T : Type} (d : MappingDescriptor T)
    (row : Row) :
    decode d (row.filter fun c => d.fields.any fun f => f.name == c.1)
      = decode d row
  ∧ ((∀ c ∈ row, ∀ f ∈ d.fields, ¬ f.name = c.1) →
       decode d row = .ok d.default)
  ∧ decode sensorDescriptor
        [("host", .str "server01"), ("value", .float64 "0.64")]
      = .ok ⟨some "server01", none, "0.64"⟩ :=
  ⟨decodeFrom_filter d.fields d.default row,
   fun h => decodeFrom_all_unknown d.fields d.default row h,
   by decide⟩

/-- Witness for C7: a row holding only an unknown column decodes to the
target's default. -/
theorem claim_c7_decode_defaults_witness :
    decode sensorDescriptor [("unknown", .int64 3)]
      = .ok ⟨none, none, "0"⟩ :=
  (claim_c7_decode_defaults sensorDescriptor [("unknown", .int64 3)]).2.1
    (by decide)

/-- Claim C8: the no-precision entry points are exactly the
nanosecond-precision ones: `write` delegates to `write_with_precision`
at nanoseconds and `write_line_protocol` to
`write_line_protocol_with_precision` at nanoseconds, for every transport,
client, org, bucket, body and point sequence. -/
theorem claim_c8_default_precision_nanoseconds {P : Type}
    (transport : Transport) (client : Client)
    (enc : P → Except IOError (List Char)) (org bucket : String)
    (body : List Char) (points : List P) :
    write_line_protocol transport client org bucket body
      = write_line_protocol_with_precision transport client org bucket body
          .nanoseconds
  ∧ write transport client enc bucket points
      = write_with_precision transport client enc bucket points
          .nanoseconds :=
  ⟨rfl, rfl⟩

/-- Claim C9: when the transport returns a response, the write succeeds
exactly when that response's status is 204 No Content; any other status
— including other success statuses such as 200 and 201 — produces the
`Http` error carrying that status and the response text. -/
theorem claim_c9_success_iff_204 (transport : Transport) (client : Client)
    (org bucket : String) (body : List Char) (precision : TimestampPrecision)
    (headers : List (String × String)) (response : HttpResponse)
    (h : transport (mkWriteRequest client org bucket precision headers body)
      = .ok response) :
    (write_line_protocol_with_precision_headers transport client org bucket
        body precision headers = .ok ()
      ↔ response.status = 204)
  ∧ (response.status ≠ 204 →
      write_line_protocol_with_precision_headers transport client org bucket
          body precision headers
        = .error (.http response.status response.text)) := by
  constructor
  · by_cases hs : response.status = 204
    · simp [write_line_protocol_with_precision_headers, h, hs]
    · simp [write_line_protocol_with_precision_headers, h, hs]
  · intro hs
    simp [write_line_protocol_with_precision_headers, h, hs]

/-- Witness for C9: statuses 204, 200 and 201 at a concrete client;
only 204 is success, and 200/201 become `Http` errors. -/
theorem claim_c9_success_iff_204_witness :
    write_line_protocol_with_precision_headers (fun _ => .ok ⟨204, ""⟩)
        ⟨⟨[], []⟩, "o", none⟩ "o" "b" [] .nanoseconds [] = .ok ()
  ∧ write_line_protocol_with_precision_headers (fun _ => .ok ⟨200, "t"⟩)
        ⟨⟨[], []⟩, "o", none⟩ "o" "b" [] .nanoseconds []
      = .error (.http 200 "t")
  ∧ write_line_protocol_with_precision_headers (fun _ => .ok ⟨201, "u"⟩)
        ⟨⟨[], []⟩, "o", none⟩ "o" "b" [] .nanoseconds []
      = .error (.http 201 "u") :=
  ⟨(claim_c9_success_iff_204 _ _ _ _ _ _ _ _ rfl).1.mpr rfl,
   (claim_c9_success_iff_204 _ _ _ _ _ _ _ _ rfl).2 (by decide),
   (claim_c9_success_iff_204 _ _ _ _ _ _ _ _ rfl).2 (by decide)⟩

/-- Claim C10: `Client::url` yields the same URI whether or not the
endpoint starts with `/` (a missing one is prepended), and
`ClientBuilder::new` strips one trailing `/` from the base URL — so a
base ending in `/` behaves exactly like the same base without it, and
joining it with a slash-leading endpoint renders as the bare
scheme-and-authority followed by exactly the endpoint's own slash, never
a double slash at the junction. -/
theorem claim_c10_url_slashes :
    (∀ (base : UriParts) (e : List Char), e.head? ≠ some '/' →
       clientUrl base e = clientUrl base ('/' :: e))
  ∧ (∀ scheme auth e : List Char, ':' ∉ scheme → '/' ∉ auth → auth ≠ [] →
       clientBuilderNewBase (scheme ++ ':' :: '/' :: '/' :: auth ++ ['/'])
         = clientBuilderNewBase (scheme ++ ':' :: '/' :: '/' :: auth)
       ∧ renderUri (clientUrl
             (clientBuilderNewBase
               (scheme ++ ':' :: '/' :: '/' :: auth ++ ['/'])) e)
           = (scheme ++ ':' :: '/' :: '/' :: auth)
               ++ (if e.head? = some '/' then e else '/' :: e)) := by
  constructor
  · intro base e h
    simp [clientUrl, h]
  · intro scheme auth e hs ha hne
    have hlast : (scheme ++ ':' :: '/' :: '/' :: auth).getLast? ≠ some '/' := by
      rcases List.eq_nil_or_concat auth with h | ⟨as, a, h⟩
      · exact absurd h hne
      · subst h
        rw [List.concat_eq_append] at ha ⊢
        have hsplit : scheme ++ ':' :: '/' :: '/' :: (as ++ [a])
            = (scheme ++ ':' :: '/' :: '/' :: as) ++ [a] := by
          simp
        rw [hsplit, List.getLast?_concat]
        intro hcontra
        apply ha
        rw [Option.some_inj] at hcontra
        rw [hcontra]
        exact List.mem_append_right as (List.mem_singleton.mpr rfl)
    have h1 : clientBuilderNewBase
        (scheme ++ ':' :: '/' :: '/' :: auth ++ ['/'])
        = parseUri (scheme ++ ':' :: '/' :: '/' :: auth) := by
      rw [clientBuilderNewBase, stripTrailingSlash_concat]
    have h2 : clientBuilderNewBase (scheme ++ ':' :: '/' :: '/' :: auth)
        = parseUri (scheme ++ ':' :: '/' :: '/' :: auth) := by
      rw [clientBuilderNewBase, stripTrailingSlash_of_ne _ hlast]
    refine ⟨h1.trans h2.symm, ?_⟩
    rw [h1, parseUri_base scheme auth hs ha, clientUrl, renderUri]
    simp

/-- Witness for C10: the repository's own test case — the two spellings
of the endpoint yield the same URI, and the trailing-slash base yields
`http://influxdb.com/api/v2/write` with no double slash. -/
theorem claim_c10_url_slashes_witness :
    clientUrl ⟨"http://influxdb.com".toList, []⟩ "api/v2/write".toList
      = clientUrl ⟨"http://influxdb.com".toList, []⟩
          ('/' :: "api/v2/write".toList)
  ∧ renderUri (clientUrl
        (clientBuilderNewBase ("http".toList
          ++ ':' :: '/' :: '/' :: "influxdb.com".toList ++ ['/']))
        "/api/v2/write".toList)
      = ("http".toList ++ ':' :: '/' :: '/' :: "influxdb.com".toList)
          ++ (if ("/api/v2/write".toList).head? = some '/'
              then "/api/v2/write".toList
              else '/' :: "/api/v2/write".toList) :=
  ⟨claim_c10_url_slashes.1 _ _ (by decide),
   (claim_c10_url_slashes.2 "http".toList "influxdb.com".toList
     "/api/v2/write".toList (by decide) (by decide) (by decide)).2⟩

end Influx
